import Mathlib

/-!
Verification of the Tool Registry and Approval-Gated Execution model of the
`langchain-agent-with-memory` repository.

The approval gate is embedded from `streamlit_demo.py`
(`AdvancedStreamlitMemoryAgent._request_approval` and the approve / deny /
approve-all / deny-all / clear-processed handlers in `main`); the tool
registry is embedded from `tools/registry.py` (`ToolCategory`, `ToolConfig`,
`BaseToolModule.request_approval`, `ToolRegistry.get_tools`).

Python closures passed as deferred actions are modelled as `ActionSpec`: a
`label` identifying the closure (so that invocations can be counted) and an
`outcome` saying what calling it does (return a string, or raise).  Every
invocation of an action is journalled in `SessionState.execLog`, mirroring
the call-count probes used by the repository's own
`test/test_multiple_approvals.py`.
-/

/-- Status of a pending-approval record: the `'pending' / 'approved' /
`'denied'` strings stored in `approval['status']` in `streamlit_demo.py`. -/
inductive Status where
  | pending
  | approved
  | denied
deriving DecidableEq, Repr

/-- Outcome of calling a zero-argument Python action: it either returns a
display string or raises an exception carrying a message. -/
inductive ActionOutcome where
  | returns (result : String)
  | raises (err : String)
deriving DecidableEq, Repr

/-- A deferred zero-argument closure: `label` is the identity of the closure
(used to count how many times it is invoked), `outcome` is what one call to
it does. -/
structure ActionSpec where
  label : Nat
  outcome : ActionOutcome
deriving DecidableEq, Repr

/-- True when one call to the action returns normally. -/
def ActionSpec.succeeds (a : ActionSpec) : Bool :=
  match a.outcome with
  | .returns _ => true
  | .raises _ => false

/-- One record of the approval log, as built by `_request_approval` in
`streamlit_demo.py`: the dict
`{'id': approval_id, 'timestamp': timestamp, 'description': ...,
'action': ..., 'status': 'pending'}` (braces elided). -/
structure Approval where
  id : Nat
  timestamp : Nat
  description : String
  action : ActionSpec
  status : Status
deriving DecidableEq, Repr

/-- The slice of `st.session_state` that the approval workflow touches, plus
`execLog`, the journal of action invocations (one entry, the action's label,
per call). -/
structure SessionState where
  pending_approvals : List Approval
  has_new_approval : Bool
  force_approval_check : Bool
  approval_ui_shown : Bool
  messages : List String
  execLog : List Nat
deriving DecidableEq, Repr

/-- Fresh session: empty approval log, all flags clear. -/
def emptySession : SessionState :=
  { pending_approvals := []
    has_new_approval := false
    force_approval_check := false
    approval_ui_shown := false
    messages := []
    execLog := [] }

/-- The deferral message `_request_approval` returns
(`return f"我已经提交了{action_description}以供批准。..."`, braces elided). -/
def deferralMessage (action_description : String) : String :=
  "我已经提交了" ++ action_description ++ "以供批准。请检查上面的批准部分以批准或拒绝此操作。"

/-- `AdvancedStreamlitMemoryAgent._request_approval` (streamlit_demo.py
lines 1017-1053): appends a new record with `id = len(pending_approvals)`,
the current millisecond `timestamp` (a parameter here), status `pending`;
sets `has_new_approval` and `force_approval_check`; returns the deferral
message.  The action is not invoked. -/
def requestApproval (action_description : String) (action_func : ActionSpec)
    (now : Nat) (st : SessionState) : SessionState × String :=
  let approval_id := st.pending_approvals.length
  let approval : Approval :=
    { id := approval_id
      timestamp := now
      description := action_description
      action := action_func
      status := .pending }
  ({ st with
      pending_approvals := st.pending_approvals ++ [approval]
      has_new_approval := true
      force_approval_check := true },
   deferralMessage action_description)

/-- The `remaining_pending` count computed after a per-record resolution
(streamlit_demo.py lines 2133 and 2158): pending records whose id differs
from the one just resolved. -/
def remainingPending (resolvedId : Nat) (log : List Approval) : Nat :=
  (log.filter (fun b => decide (b.status = Status.pending) &&
    decide (b.id ≠ resolvedId))).length

/-- The per-record "✅ 同意" handler (streamlit_demo.py lines 2124-2139),
addressed by the record's position `i` in the log.  The button exists only
for records in the pending snapshot of line 2048, so a missing or
non-pending record is a no-op.  On a pending record the action is invoked:
if it returns, the record becomes `approved` and the result message is
appended to the transcript; if it raises, only an error toast is shown —
the record's status is left unchanged. -/
def approveAt (i : Nat) (st : SessionState) : SessionState :=
  match st.pending_approvals[i]? with
  | none => st
  | some a =>
    if a.status = Status.pending then
      match a.action.outcome with
      | .returns result =>
        let log := st.pending_approvals.set i { a with status := .approved }
        { st with
            pending_approvals := log
            messages := st.messages ++ ["✅ 操作已执行：" ++ result]
            execLog := st.execLog ++ [a.action.label]
            approval_ui_shown :=
              if remainingPending a.id log = 0 then false
              else st.approval_ui_shown }
      | .raises _ =>
        { st with execLog := st.execLog ++ [a.action.label] }
    else st

/-- The per-record "❌ 拒绝" handler (streamlit_demo.py lines 2141-2162):
sets the record to `denied` and appends the rejection message; the action is
never invoked. -/
def denyAt (i : Nat) (st : SessionState) : SessionState :=
  match st.pending_approvals[i]? with
  | none => st
  | some a =>
    if a.status = Status.pending then
      let log := st.pending_approvals.set i { a with status := .denied }
      { st with
          pending_approvals := log
          messages := st.messages ++ ["❌ 操作被拒绝：" ++ a.description]
          approval_ui_shown :=
            if remainingPending a.id log = 0 then false
            else st.approval_ui_shown }
    else st

/-- Body of the "✅ 全部同意" loop (streamlit_demo.py lines 2010-2020):
walks the log in order; each pending record's action is invoked, and on a
normal return the record becomes `approved` and its result message is
emitted; on a raise the record is left unchanged.  Returns the new log, the
emitted messages, and the labels of the invoked actions, in order. -/
def approveAllGo : List Approval → List Approval × List String × List Nat
  | [] => ([], [], [])
  | a :: rest =>
    let (as, ms, es) := approveAllGo rest
    if a.status = Status.pending then
      match a.action.outcome with
      | .returns result =>
        ({ a with status := .approved } :: as,
         ("✅ 操作已执行：" ++ result) :: ms,
         a.action.label :: es)
      | .raises _ => (a :: as, ms, a.action.label :: es)
    else (a :: as, ms, es)

/-- The "✅ 全部同意" bulk handler (streamlit_demo.py lines 2009-2022). -/
def approveAll (st : SessionState) : SessionState :=
  let (as, ms, es) := approveAllGo st.pending_approvals
  { st with
      pending_approvals := as
      messages := st.messages ++ ms
      execLog := st.execLog ++ es }

/-- Body of the "❌ 全部拒绝" loop (streamlit_demo.py lines 2026-2032):
every pending record becomes `denied` and its rejection message is emitted;
no action is ever invoked. -/
def denyAllGo : List Approval → List Approval × List String
  | [] => ([], [])
  | a :: rest =>
    let (as, ms) := denyAllGo rest
    if a.status = Status.pending then
      ({ a with status := .denied } :: as,
       ("❌ 操作被拒绝：" ++ a.description) :: ms)
    else (a :: as, ms)

/-- The "❌ 全部拒绝" bulk handler (streamlit_demo.py lines 2025-2034). -/
def denyAll (st : SessionState) : SessionState :=
  let (as, ms) := denyAllGo st.pending_approvals
  { st with
      pending_approvals := as
      messages := st.messages ++ ms }

/-- The "🧹 清理已处理" handler (streamlit_demo.py lines 2037-2043): keeps
exactly the records whose status is still `pending`. -/
def clearProcessed (st : SessionState) : SessionState :=
  { st with
      pending_approvals :=
        st.pending_approvals.filter (fun a => decide (a.status = Status.pending)) }

/-- The pending snapshot of streamlit_demo.py line 2048: all records whose
status is `pending`, in insertion order. -/
def listPending (st : SessionState) : List Approval :=
  st.pending_approvals.filter (fun a => decide (a.status = Status.pending))

/-- One operator / agent step on the approval log. -/
inductive Op where
  | register (desc : String) (act : ActionSpec) (now : Nat)
  | approve (i : Nat)
  | deny (i : Nat)
  | approveAllOp
  | denyAllOp
  | clearProcessedOp
deriving DecidableEq, Repr

/-- Apply one step (the deferral message returned by `register` is dropped:
it goes back to the agent, not into the approval state). -/
def applyOp : Op → SessionState → SessionState
  | .register desc act now, st => (requestApproval desc act now st).1
  | .approve i, st => approveAt i st
  | .deny i, st => denyAt i st
  | .approveAllOp, st => approveAll st
  | .denyAllOp, st => denyAll st
  | .clearProcessedOp, st => clearProcessed st

/-- Run a sequence of steps, first element first. -/
def runOps (ops : List Op) (st : SessionState) : SessionState :=
  ops.foldl (fun s o => applyOp o s) st

/-- How many times the action labelled `l` has been invoked. -/
def execCount (l : Nat) (st : SessionState) : Nat :=
  st.execLog.count l

/-- Predicate for a record that carries the action labelled `l` and is
still pending. -/
def carriesPending (l : Nat) (a : Approval) : Bool :=
  decide (a.action.label = l) && decide (a.status = Status.pending)

/-- Number of records in a log slice that carry the action labelled `l` and
are still pending. -/
def pendingLabelCountL (l : Nat) (xs : List Approval) : Nat :=
  (xs.filter (carriesPending l)).length

/-- Number of records in the log that carry the action labelled `l` and are
still pending. -/
def pendingLabelCount (l : Nat) (st : SessionState) : Nat :=
  pendingLabelCountL l st.pending_approvals

/-- Predicate: if the record carries the action labelled `l`, that action
returns normally. -/
def okRecord (l : Nat) (a : Approval) : Bool :=
  !(decide (a.action.label = l)) || a.action.succeeds

/-- Every record in a log slice that carries the action labelled `l` has an
action that returns normally. -/
def okLabelL (l : Nat) (xs : List Approval) : Bool :=
  xs.all (okRecord l)

/-- Every record in the log that carries the action labelled `l` has an
action that returns normally. -/
def okLabel (l : Nat) (st : SessionState) : Bool :=
  okLabelL l st.pending_approvals

/-- No step in the sequence registers a record whose action carries label
`l`. -/
def opsAvoidLabel (l : Nat) (ops : List Op) : Bool :=
  ops.all (fun o =>
    match o with
    | .register _ act _ => !(decide (act.label = l))
    | _ => true)

/-! ## Tool registry (`tools/registry.py`) -/

/-- The `ToolCategory` enum (registry.py lines 23-33). -/
inductive ToolCategory where
  | utility
  | information
  | productivity
  | communication
  | memory
  | system
  | entertainment
  | mcp
  | custom
deriving DecidableEq, Repr

/-- `list(ToolCategory)`: all members in declaration order. -/
def allCategories : List ToolCategory :=
  [.utility, .information, .productivity, .communication, .memory, .system,
   .entertainment, .mcp, .custom]

/-- The `ToolCategory(cat)` constructor applied to a string: succeeds on a
member's value string, otherwise the `ValueError` branch (here `none`). -/
def ToolCategory.ofString? : String → Option ToolCategory
  | "utility" => some .utility
  | "information" => some .information
  | "productivity" => some .productivity
  | "communication" => some .communication
  | "memory" => some .memory
  | "system" => some .system
  | "entertainment" => some .entertainment
  | "mcp" => some .mcp
  | "custom" => some .custom
  | _ => none

/-- The `ToolConfig` dataclass (registry.py lines 36-47); the descriptive
`parameters` dict is represented as a key/value list. -/
structure ToolConfig where
  name : String
  category : ToolCategory
  description : String
  requires_approval : Bool := false
  risk_level : String := "low"
  enabled : Bool := true
  example_usage : String := ""
  parameters : List (String × String) := []
  tags : List String := []
deriving DecidableEq, Repr

/-- A category argument of type `Union[str, ToolCategory]`. -/
inductive CatArg where
  | str (s : String)
  | cat (c : ToolCategory)
deriving DecidableEq, Repr

/-- The conversion loop shared by `__init__` and `get_tools` (registry.py
lines 120-128 and 206-215): strings are parsed with `ToolCategory(...)`,
invalid ones are skipped with a warning, enum members pass through. -/
def convertCats (l : List CatArg) : List ToolCategory :=
  l.filterMap (fun c =>
    match c with
    | .str s => ToolCategory.ofString? s
    | .cat c => some c)

/-- `self.enabled_categories` as computed by `ToolRegistry.__init__`
(registry.py lines 118-130): a falsy argument (absent or the empty list)
yields `list(ToolCategory)`; otherwise the conversion loop runs. -/
def initEnabledCategories (enabled_categories : Option (List CatArg)) :
    List ToolCategory :=
  match enabled_categories with
  | none => allCategories
  | some l => if l.isEmpty then allCategories else convertCats l

/-- An agent-invocable tool handle: only its `name` attribute is read by the
registry. -/
structure ToolHandle where
  name : String
deriving DecidableEq, Repr

/-- The registry state after `_initialize_modules`: `modules` is
`self._modules` (module key ↦ that module's `get_tools()` list, in
registration order), `tool_configs` is `self._tool_configs` (tool name ↦
config). -/
structure ToolRegistry where
  enabled_categories : List ToolCategory
  enabled_tools : Option (List String)
  modules : List (String × List ToolHandle)
  tool_configs : List (String × ToolConfig)
deriving DecidableEq, Repr

/-- The per-tool test of the `get_tools` loop body (registry.py lines
223-238): missing or disabled config drops the tool; a non-empty category
filter drops categories outside it; a non-empty name filter drops names
outside it. -/
def toolPasses (tool_configs : List (String × ToolConfig))
    (filter_categories : List ToolCategory)
    (filter_tools : Option (List String)) (t : ToolHandle) : Bool :=
  match List.lookup t.name tool_configs with
  | none => false
  | some config =>
    config.enabled &&
    (filter_categories.isEmpty || filter_categories.contains config.category) &&
    (match filter_tools with
     | none => true
     | some names => names.isEmpty || names.contains t.name)

/-- `ToolRegistry.get_tools` (registry.py lines 187-244).
`filter_categories = categories or self.enabled_categories` and
`filter_tools = enabled_tools or self.enabled_tools` make a falsy argument
(absent or empty) fall back to the instance setting; a given non-empty
category list goes through the string-to-enum conversion (invalid entries
skipped); then modules are walked in registration order and each module's
handles in order, keeping the handles that pass `toolPasses`. -/
def ToolRegistry.get_tools (reg : ToolRegistry)
    (categories : Option (List CatArg))
    (enabled_tools : Option (List String)) : List ToolHandle :=
  let filter_categories :=
    match categories with
    | none => reg.enabled_categories
    | some l => if l.isEmpty then reg.enabled_categories else convertCats l
  let filter_tools :=
    match enabled_tools with
    | none => reg.enabled_tools
    | some l => if l.isEmpty then reg.enabled_tools else some l
  (reg.modules.map (fun m => m.2)).flatten.filter
    (toolPasses reg.tool_configs filter_categories filter_tools)

/-- Specification-side restatement of the filter, written from the spec's
words ("applies, in order: (1) drop any whose config is missing or
enabled=false; (2) if a category filter is given, drop any whose config
category is not in the filter set; (3) if a name filter is given, drop any
whose name is not in the filter set"), for comparison with `toolPasses`. -/
def specToolPasses (tool_configs : List (String × ToolConfig))
    (catFilter : Option (List ToolCategory))
    (nameFilter : Option (List String)) (t : ToolHandle) : Bool :=
  match List.lookup t.name tool_configs with
  | none => false
  | some config =>
    config.enabled &&
    (match catFilter with
     | none => true
     | some s => s.contains config.category) &&
    (match nameFilter with
     | none => true
     | some s => s.contains t.name)

/-! ## Tool modules (`BaseToolModule`, registry.py lines 64-89) -/

/-- `BaseToolModule`: the approval flag and the optional approval handler
set by `set_approval_handler`.  A handler takes the description and the
action and transforms the session state, returning an outcome (normally a
deferral message). -/
structure BaseToolModule where
  enable_user_approval : Bool
  approval_handler :
    Option (String → ActionSpec → SessionState → SessionState × ActionOutcome)

/-- Invoking `action()` directly: the call is journalled and its outcome
(normal return or raised exception) is the result. -/
def callAction (action : ActionSpec) (st : SessionState) :
    SessionState × ActionOutcome :=
  ({ st with execLog := st.execLog ++ [action.label] }, action.outcome)

/-- `BaseToolModule.request_approval` (registry.py lines 76-81): when the
approval flag is set and a handler is present, forward to the handler;
otherwise invoke the action synchronously. -/
def BaseToolModule.request_approval (m : BaseToolModule)
    (description : String) (action : ActionSpec) (st : SessionState) :
    SessionState × ActionOutcome :=
  match m.enable_user_approval, m.approval_handler with
  | true, some h => h description action st
  | true, none => callAction action st
  | false, _ => callAction action st

/-! ## Derived notions used by the statements -/

/-- Status change a record undergoes in the "✅ 全部同意" sweep: a pending
record becomes approved, others are untouched. -/
def approveBump (a : Approval) : Approval :=
  if a.status = Status.pending then { a with status := .approved } else a

/-- Status change a record undergoes in the "❌ 全部拒绝" sweep: a pending
record becomes denied, others are untouched. -/
def denyBump (a : Approval) : Approval :=
  if a.status = Status.pending then { a with status := .denied } else a

/-- Predicate: either the record is no longer pending, or its action
returns normally when called. -/
def pendingSucceeds (a : Approval) : Bool :=
  !(decide (a.status = Status.pending)) || a.action.succeeds

/-- Every still-pending record of the log has an action that returns
normally. -/
def allPendingSucceed (st : SessionState) : Bool :=
  st.pending_approvals.all pendingSucceeds

/-- Inductive invariant behind at-most-once execution of the action
labelled `l`: every record carrying `l` has a normally-returning action,
and the invocations of `l` so far plus the pending records that could still
invoke it never exceed one. -/
def atMostOnceInv (l : Nat) (st : SessionState) : Prop :=
  okLabel l st = true ∧ execCount l st + pendingLabelCount l st ≤ 1

/-! ## Concrete fixtures used by witnesses and counterexamples -/

/-- Config fixture: enabled utility tool (the spec's example A). -/
def cfgA : ToolConfig :=
  { name := "A", category := .utility, description := "tool a" }

/-- Config fixture: enabled memory tool (the spec's example B). -/
def cfgB : ToolConfig :=
  { name := "B", category := .memory, description := "tool b" }

/-- Config fixture: disabled utility tool (the spec's example C). -/
def cfgC : ToolConfig :=
  { name := "C", category := .utility, description := "tool c", enabled := false }

/-- Registry fixture holding the three example tools in one module, with
default instance-level settings. -/
def regEx : ToolRegistry :=
  { enabled_categories := allCategories
    enabled_tools := none
    modules := [("basic", [⟨"A"⟩, ⟨"B"⟩, ⟨"C"⟩])]
    tool_configs := [("A", cfgA), ("B", cfgB), ("C", cfgC)] }

/-- Module fixture with the approval gate disabled and no handler set. -/
def bypassModule : BaseToolModule :=
  { enable_user_approval := false, approval_handler := none }

/-- A category argument that denotes a category: an enum member, or a
string the enum constructor accepts. -/
def CatArg.valid (c : CatArg) : Bool :=
  match c with
  | .str s => (ToolCategory.ofString? s).isSome
  | .cat _ => true

/-! ## Helper lemmas -/

/-- Replacing the element at position `i` changes the size of a filtered
list by exactly the difference of the two elements' predicate values. -/
theorem length_filter_set {α : Type} (p : α → Bool) :
    ∀ (xs : List α) (i : Nat) (a b : α), xs[i]? = some a →
    ((xs.set i b).filter p).length + (if p a then 1 else 0)
      = (xs.filter p).length + (if p b then 1 else 0) := by
  intro xs
  induction xs with
  | nil => intro i a b h; simp at h
  | cons x xs ih =>
    intro i a b h
    cases i with
    | zero =>
      have hx : x = a := by simpa using h
      subst hx
      simp only [List.set_cons_zero, List.filter_cons]
      cases hpx : p x <;> cases hpb : p b <;> simp [hpx, hpb]
    | succ n =>
      simp only [List.getElem?_cons_succ] at h
      simp only [List.set_cons_succ, List.filter_cons]
      have := ih n a b h
      cases hpx : p x <;> simp [hpx] <;> omega

/-- `List.all` survives replacing an element by one that also satisfies the
predicate. -/
theorem all_set {α : Type} (p : α → Bool) (xs : List α) (i : Nat) (b : α)
    (hall : xs.all p = true) (hb : p b = true) : (xs.set i b).all p = true := by
  rw [List.all_eq_true] at hall ⊢
  intro x hx
  rcases List.mem_or_eq_of_mem_set hx with h | h
  · exact hall x h
  · subst h; exact hb

/-- A record's action is the same after a status bump. -/
theorem okRecord_status_update (l : Nat) (a : Approval) (s : Status) :
    okRecord l { a with status := s } = okRecord l a := rfl

/-- Per-record approval preserves the at-most-once invariant. -/
theorem atMostOnceInv_approveAt (l i : Nat) (st : SessionState)
    (h : atMostOnceInv l st) : atMostOnceInv l (approveAt i st) := by
  obtain ⟨hok, hc⟩ := h
  unfold approveAt
  cases hget : st.pending_approvals[i]? with
  | none => exact ⟨hok, hc⟩
  | some a =>
    by_cases hp : a.status = Status.pending
    · simp only [hp, if_true, if_pos]
      have ha : okRecord l a = true :=
        List.all_eq_true.mp hok _ (List.getElem?_mem hget)
      cases hout : a.action.outcome with
      | returns r =>
        constructor
        · unfold okLabel okLabelL at *
          exact all_set _ _ _ _ hok (by rw [okRecord_status_update]; exact ha)
        · unfold execCount pendingLabelCount pendingLabelCountL at *
          have hset := length_filter_set (carriesPending l)
            st.pending_approvals i a { a with status := .approved } hget
          by_cases hll : a.action.label = l
          · simp only [carriesPending, hll, hp, decide_True, Bool.and_self,
              decide_eq_true_eq] at hset
            simp only [List.count_append, List.count_singleton, hll,
              beq_self_eq_true, if_true]
            simp at hset
            omega
          · simp only [carriesPending, decide_eq_true_eq, hll, decide_False,
              Bool.false_and, if_false] at hset
            have : (a.action.label == l) = false := by
              simp [hll]
            simp only [List.count_append, List.count_singleton, this,
              Bool.false_eq_true, if_false]
            simp at hset
            omega
      | raises e =>
        have hlab : a.action.label ≠ l := by
          intro hcontra
          rw [okRecord, hcontra] at ha
          simp [ActionSpec.succeeds, hout] at ha
        constructor
        · exact hok
        · unfold execCount pendingLabelCount pendingLabelCountL at *
          have : (a.action.label == l) = false := by simp [hlab]
          simp only [List.count_append, List.count_singleton, this,
            Bool.false_eq_true, if_false]
          omega
    · simp only [hp, if_false]
      exact ⟨hok, hc⟩

/-- Per-record denial preserves the at-most-once invariant. -/
theorem atMostOnceInv_denyAt (l i : Nat) (st : SessionState)
    (h : atMostOnceInv l st) : atMostOnceInv l (denyAt i st) := by
  obtain ⟨hok, hc⟩ := h
  unfold denyAt
  cases hget : st.pending_approvals[i]? with
  | none => exact ⟨hok, hc⟩
  | some a =>
    by_cases hp : a.status = Status.pending
    · simp only [hp, if_true, if_pos]
      have ha : okRecord l a = true :=
        List.all_eq_true.mp hok _ (List.getElem?_mem hget)
      constructor
      · unfold okLabel okLabelL at *
        exact all_set _ _ _ _ hok (by rw [okRecord_status_update]; exact ha)
      · unfold execCount pendingLabelCount pendingLabelCountL at *
        dsimp only
        have hset := length_filter_set (carriesPending l)
          st.pending_approvals i a { a with status := .denied } hget
        have hfb : carriesPending l { a with status := .denied } = false := by
          simp [carriesPending]
        rw [hfb] at hset
        simp only [if_false, Bool.false_eq_true] at hset
        cases hfa : carriesPending l a <;> rw [hfa] at hset <;> simp at hset <;> omega
    · simp only [hp, if_false]
      exact ⟨hok, hc⟩

/-- The bulk approve sweep: the invocations it adds for label `l` plus the
still-pending carriers of `l` afterwards equal the pending carriers before,
and good labels stay good. -/
theorem approveAllGo_count (l : Nat) :
    ∀ xs : List Approval, okLabelL l xs = true →
    (approveAllGo xs).2.2.count l + pendingLabelCountL l (approveAllGo xs).1
        = pendingLabelCountL l xs
      ∧ okLabelL l (approveAllGo xs).1 = true := by
  intro xs
  induction xs with
  | nil =>
    intro h
    exact ⟨by simp [approveAllGo, pendingLabelCountL],
           by simpa [approveAllGo] using h⟩
  | cons a rest ih =>
    intro hok
    rw [okLabelL, List.all_cons, Bool.and_eq_true] at hok
    obtain ⟨ha, hrest⟩ := hok
    obtain ⟨ihc, ihok⟩ := ih hrest
    by_cases hp : a.status = Status.pending
    · cases hout : a.action.outcome with
      | returns r =>
        simp only [approveAllGo, hp, if_true, hout]
        constructor
        · unfold pendingLabelCountL at *
          simp only [List.count_cons, List.filter_cons]
          by_cases hll : a.action.label = l
          · simp [carriesPending, hll, hp]
            rw [Nat.add_right_comm, ihc]
          · simp [carriesPending, hll, hp]
            exact ihc
        · rw [okLabelL, List.all_cons, Bool.and_eq_true]
          exact ⟨by rw [okRecord_status_update]; exact ha, ihok⟩
      | raises e =>
        have hll : a.action.label ≠ l := by
          intro hcontra
          rw [okRecord, hcontra] at ha
          simp [ActionSpec.succeeds, hout] at ha
        simp only [approveAllGo, hp, if_true, hout]
        constructor
        · unfold pendingLabelCountL at *
          simp only [List.count_cons, List.filter_cons]
          simp [carriesPending, hll, hp]
          exact ihc
        · rw [okLabelL, List.all_cons, Bool.and_eq_true]
          exact ⟨ha, ihok⟩
    · simp only [approveAllGo, hp, if_false]
      constructor
      · unfold pendingLabelCountL at *
        simp only [List.filter_cons]
        have hfa : carriesPending l a = false := by
          simp [carriesPending, hp]
        simp only [hfa, Bool.false_eq_true, if_false]
        exact ihc
      · rw [okLabelL, List.all_cons, Bool.and_eq_true]
        exact ⟨ha, ihok⟩

/-- The bulk deny sweep only bumps statuses. -/
theorem denyAllGo_fst : ∀ xs : List Approval,
    (denyAllGo xs).1 = xs.map denyBump := by
  intro xs
  induction xs with
  | nil => simp [denyAllGo]
  | cons a rest ih =>
    by_cases hp : a.status = Status.pending <;>
      simp [denyAllGo, hp, denyBump, ih]

/-- A status bump does not change a record's action. -/
theorem okRecord_denyBump (l : Nat) (a : Approval) :
    okRecord l (denyBump a) = okRecord l a := by
  unfold denyBump
  split <;> rfl

/-- After the deny sweep no record is pending any more. -/
theorem pendingLabelCountL_map_denyBump (l : Nat) (xs : List Approval) :
    pendingLabelCountL l (xs.map denyBump) = 0 := by
  unfold pendingLabelCountL
  rw [List.length_eq_zero, List.filter_eq_nil_iff]
  intro a ha
  rw [List.mem_map] at ha
  obtain ⟨b, _, hb⟩ := ha
  subst hb
  unfold denyBump carriesPending
  split <;> simp_all

/-- Good labels survive the deny sweep. -/
theorem okLabelL_map_denyBump (l : Nat) (xs : List Approval)
    (h : okLabelL l xs = true) : okLabelL l (xs.map denyBump) = true := by
  unfold okLabelL at *
  rw [List.all_eq_true] at h ⊢
  intro a ha
  rw [List.mem_map] at ha
  obtain ⟨b, hb, hba⟩ := ha
  subst hba
  rw [okRecord_denyBump]
  exact h b hb

/-- Keeping only the pending records does not change the pending carriers
of a label. -/
theorem pendingLabelCountL_filter_pending (l : Nat) (xs : List Approval) :
    pendingLabelCountL l
      (xs.filter (fun a => decide (a.status = Status.pending)))
      = pendingLabelCountL l xs := by
  unfold pendingLabelCountL
  rw [List.filter_filter]
  congr 1
  apply List.filter_congr
  intro a _
  unfold carriesPending
  rw [Bool.and_assoc, Bool.and_self]

/-- Good labels survive keeping only the pending records. -/
theorem okLabelL_filter (l : Nat) (p : Approval → Bool) (xs : List Approval)
    (h : okLabelL l xs = true) : okLabelL l (xs.filter p) = true := by
  unfold okLabelL at *
  rw [List.all_eq_true] at h ⊢
  intro a ha
  exact h a (List.mem_filter.mp ha).1

/-- Registering a record whose action carries a different label changes
neither the invocation count nor the pending count for `l`, and keeps
`okLabel`. -/
theorem atMostOnceInv_requestApproval (l : Nat) (desc : String)
    (act : ActionSpec) (now : Nat) (st : SessionState)
    (hl : act.label ≠ l) (h : atMostOnceInv l st) :
    atMostOnceInv l (requestApproval desc act now st).1 := by
  obtain ⟨hok, hc⟩ := h
  constructor
  · unfold okLabel okLabelL requestApproval at *
    simp only [List.all_append, Bool.and_eq_true] at *
    exact ⟨hok, by simp [okRecord, hl]⟩
  · unfold execCount pendingLabelCount pendingLabelCountL requestApproval at *
    simp only [List.filter_append] at *
    have : (List.filter (carriesPending l)
        [({ id := st.pending_approvals.length, timestamp := now,
            description := desc, action := act,
            status := Status.pending } : Approval)]) = [] := by
      simp [carriesPending, hl]
    simp only [this, List.length_append, List.length_nil]
    omega

/-- The bulk approve sweep preserves the at-most-once invariant. -/
theorem atMostOnceInv_approveAll (l : Nat) (st : SessionState)
    (h : atMostOnceInv l st) : atMostOnceInv l (approveAll st) := by
  obtain ⟨hok, hc⟩ := h
  obtain ⟨hcount, hok2⟩ := approveAllGo_count l st.pending_approvals hok
  constructor
  · unfold okLabel approveAll
    exact hok2
  · unfold execCount pendingLabelCount approveAll at *
    dsimp only
    rw [List.count_append, Nat.add_assoc, hcount]
    exact hc

/-- The bulk deny sweep preserves the at-most-once invariant. -/
theorem atMostOnceInv_denyAll (l : Nat) (st : SessionState)
    (h : atMostOnceInv l st) : atMostOnceInv l (denyAll st) := by
  obtain ⟨hok, hc⟩ := h
  constructor
  · unfold okLabel denyAll
    dsimp only
    rw [denyAllGo_fst]
    exact okLabelL_map_denyBump l _ hok
  · unfold execCount pendingLabelCount denyAll at *
    dsimp only
    rw [denyAllGo_fst, pendingLabelCountL_map_denyBump]
    exact Nat.le_trans (Nat.le_add_right _ _) hc

/-- Clearing processed records preserves the at-most-once invariant. -/
theorem atMostOnceInv_clearProcessed (l : Nat) (st : SessionState)
    (h : atMostOnceInv l st) : atMostOnceInv l (clearProcessed st) := by
  obtain ⟨hok, hc⟩ := h
  constructor
  · unfold okLabel clearProcessed
    exact okLabelL_filter l _ _ hok
  · unfold execCount pendingLabelCount clearProcessed at *
    dsimp only
    rw [pendingLabelCountL_filter_pending]
    exact hc

/-- Every single step that does not register a new carrier of `l`
preserves the at-most-once invariant. -/
theorem atMostOnceInv_applyOp (l : Nat) (o : Op) (st : SessionState)
    (havoid : opsAvoidLabel l [o] = true)
    (h : atMostOnceInv l st) : atMostOnceInv l (applyOp o st) := by
  cases o with
  | register desc act now =>
    have hl : act.label ≠ l := by
      simp [opsAvoidLabel] at havoid
      exact havoid
    exact atMostOnceInv_requestApproval l desc act now st hl h
  | approve i => exact atMostOnceInv_approveAt l i st h
  | deny i => exact atMostOnceInv_denyAt l i st h
  | approveAllOp => exact atMostOnceInv_approveAll l st h
  | denyAllOp => exact atMostOnceInv_denyAll l st h
  | clearProcessedOp => exact atMostOnceInv_clearProcessed l st h

/-- A run of steps avoiding label `l` preserves the at-most-once
invariant. -/
theorem atMostOnceInv_runOps (l : Nat) (ops : List Op) :
    ∀ st : SessionState, opsAvoidLabel l ops = true →
    atMostOnceInv l st → atMostOnceInv l (runOps ops st) := by
  induction ops with
  | nil => intro st _ h; exact h
  | cons o rest ih =>
    intro st havoid h
    rw [opsAvoidLabel, List.all_cons, Bool.and_eq_true] at havoid
    obtain ⟨ho, hrest⟩ := havoid
    have h1 := atMostOnceInv_applyOp l o st (by simp [opsAvoidLabel, ho]) h
    exact ih (applyOp o st) hrest h1

/-! ## Claim theorems -/

/-- C1 (amended): across any sequence of register / resolve / bulk-resolve /
clear-processed steps that never register another action with the same
label, an action all of whose carriers return normally is invoked at most
once; and resolving a record whose status is not pending (per-record
approve or deny) is a no-op.  (As literally stated the claim fails when the
action raises: see the counterexample, where the record stays pending and a
second resolve re-invokes it.) -/
theorem approval_action_executed_at_most_once (l : Nat) (st : SessionState)
    (ops : List Op)
    (hok : okLabel l st = true)
    (hstart : execCount l st + pendingLabelCount l st ≤ 1)
    (havoid : opsAvoidLabel l ops = true) :
    execCount l (runOps ops st) ≤ 1 ∧
    (∀ i a, st.pending_approvals[i]? = some a → a.status ≠ Status.pending →
      approveAt i st = st ∧ denyAt i st = st) := by
  constructor
  · have h := atMostOnceInv_runOps l ops st havoid ⟨hok, hstart⟩
    exact Nat.le_trans (Nat.le_add_right _ _) h.2
  · intro i a hget hp
    constructor
    · unfold approveAt
      rw [hget]
      simp [hp]
    · unfold denyAt
      rw [hget]
      simp [hp]

/-- Witness for C1: one registered record whose action returns "4",
resolved twice and then swept; the action runs at most once. -/
theorem approval_action_executed_at_most_once_witness :
    okLabel 0 (requestApproval "Calculate: 2+2" ⟨0, .returns "4"⟩ 5
        emptySession).1 = true
    ∧ execCount 0 (runOps [Op.approve 0, Op.approve 0, Op.approveAllOp]
        (requestApproval "Calculate: 2+2" ⟨0, .returns "4"⟩ 5
          emptySession).1) ≤ 1 :=
  ⟨by decide,
   (approval_action_executed_at_most_once 0
      (requestApproval "Calculate: 2+2" ⟨0, .returns "4"⟩ 5 emptySession).1
      [Op.approve 0, Op.approve 0, Op.approveAllOp]
      (by decide) (by decide) (by decide)).1⟩

/-- Counterexample to C1 as stated: a pending record whose action raises is
left pending by an approve, so approving it twice invokes the action twice
— the call count exceeds 1. -/
theorem approval_action_invoked_twice_counterexample :
    execCount 7 (runOps [Op.register "删除文件" ⟨7, .raises "disk error"⟩ 1,
        Op.approve 0, Op.approve 0] emptySession) = 2
    ∧ ¬ (execCount 7 (runOps [Op.register "删除文件"
        ⟨7, .raises "disk error"⟩ 1, Op.approve 0, Op.approve 0]
        emptySession) ≤ 1) := by
  constructor <;> decide

/-- C2: with the gate active, registering an approval request appends
exactly one pending record, raises the new-approval flag, returns the fixed
deferral message instead of running the action, and leaves the invocation
journal untouched; resolving that very record with approve invokes the
action once, surfaces its return value as the execution-result message, and
marks the record approved. -/
theorem request_approval_defers_then_resolves (st : SessionState)
    (desc : String) (act : ActionSpec) (now : Nat) (r : String)
    (hout : act.outcome = ActionOutcome.returns r) :
    (requestApproval desc act now st).2 = deferralMessage desc ∧
    (requestApproval desc act now st).1.pending_approvals
      = st.pending_approvals ++
        [{ id := st.pending_approvals.length, timestamp := now,
           description := desc, action := act, status := Status.pending }] ∧
    (requestApproval desc act now st).1.has_new_approval = true ∧
    (requestApproval desc act now st).1.execLog = st.execLog ∧
    (approveAt st.pending_approvals.length
        (requestApproval desc act now st).1).execLog
      = st.execLog ++ [act.label] ∧
    (approveAt st.pending_approvals.length
        (requestApproval desc act now st).1).pending_approvals
      = st.pending_approvals ++
        [{ id := st.pending_approvals.length, timestamp := now,
           description := desc, action := act, status := Status.approved }] ∧
    (approveAt st.pending_approvals.length
        (requestApproval desc act now st).1).messages
      = st.messages ++ ["✅ 操作已执行：" ++ r] := by
  have hget : (requestApproval desc act now st).1.pending_approvals[
      st.pending_approvals.length]?
      = some { id := st.pending_approvals.length, timestamp := now,
               description := desc, action := act, status := Status.pending } := by
    unfold requestApproval
    exact List.getElem?_concat_length _ _
  have hset : ∀ s : Status,
      (requestApproval desc act now st).1.pending_approvals.set
        st.pending_approvals.length
        { id := st.pending_approvals.length, timestamp := now,
          description := desc, action := act, status := s }
      = st.pending_approvals ++
        [{ id := st.pending_approvals.length, timestamp := now,
           description := desc, action := act, status := s }] := by
    intro s
    unfold requestApproval
    simp [List.set_append]
  refine ⟨rfl, rfl, rfl, rfl, ?_, ?_, ?_⟩ <;>
    · unfold approveAt
      rw [hget]
      simp only [if_true, hout, hset]
      try rfl

/-- Witness for C2: the spec example — requesting approval for
"calc 2+2" with an action returning "4" yields the deferral message (which
is not "4"), and approving the record surfaces "4". -/
theorem request_approval_defers_then_resolves_witness :
    (requestApproval "calc 2+2" ⟨0, .returns "4"⟩ 5 emptySession).2
        = deferralMessage "calc 2+2"
    ∧ deferralMessage "calc 2+2" ≠ "4"
    ∧ (approveAt 0 (requestApproval "calc 2+2" ⟨0, .returns "4"⟩ 5
        emptySession).1).messages = ["✅ 操作已执行：" ++ "4"] := by
  refine ⟨?_, by decide, ?_⟩
  · exact (request_approval_defers_then_resolves emptySession "calc 2+2"
      ⟨0, .returns "4"⟩ 5 "4" rfl).1
  · have h := (request_approval_defers_then_resolves emptySession "calc 2+2"
      ⟨0, .returns "4"⟩ 5 "4" rfl).2.2.2.2.2.2
    simpa using h

/-- C3: `BaseToolModule.request_approval` runs the action synchronously and
returns its outcome — touching no approval log — whenever the approval flag
is off or no handler is set; with the flag on and a handler set it forwards
to the handler and returns exactly the handler's answer. -/
theorem base_module_request_approval_dispatch (m : BaseToolModule)
    (d : String) (act : ActionSpec) (st : SessionState) :
    ((m.enable_user_approval = false ∨ m.approval_handler = none) →
      m.request_approval d act st = callAction act st
      ∧ (m.request_approval d act st).1.pending_approvals
          = st.pending_approvals
      ∧ (m.request_approval d act st).2 = act.outcome) ∧
    (∀ h, m.enable_user_approval = true → m.approval_handler = some h →
      m.request_approval d act st = h d act st) := by
  constructor
  · intro hbypass
    have hcall : m.request_approval d act st = callAction act st := by
      unfold BaseToolModule.request_approval
      rcases hbypass with hf | hn
      · rw [hf]
      · rw [hn]
        cases m.enable_user_approval <;> rfl
    exact ⟨hcall, by rw [hcall]; rfl, by rw [hcall]; rfl⟩
  · intro h hflag hhandler
    unfold BaseToolModule.request_approval
    rw [hflag, hhandler]

/-- Witness for C3: the synchronous bypass of the spec example — approval
disabled, action returning "42" runs immediately, the log is untouched. -/
theorem base_module_request_approval_dispatch_witness :
    (bypassModule.enable_user_approval = false ∨
      bypassModule.approval_handler = none)
    ∧ (bypassModule.request_approval "x" ⟨3, .returns "42"⟩ emptySession).2
        = ActionOutcome.returns "42"
    ∧ (bypassModule.request_approval "x" ⟨3, .returns "42"⟩
        emptySession).1.pending_approvals = emptySession.pending_approvals := by
  have h := (base_module_request_approval_dispatch bypassModule "x"
    ⟨3, .returns "42"⟩ emptySession).1 (Or.inl rfl)
  exact ⟨Or.inl rfl, h.2.2, h.2.1⟩

/-- C5 (amended): approving a pending record invokes its action; on a
normal return the result is surfaced as the execution message and the
record becomes approved; if the invocation raises, the record is left
pending and nothing but the invocation journal changes — the action remains
eligible for another attempt.  (As literally stated the claim fails: the
code does not mark a raising record approved; see the counterexample.) -/
theorem resolve_approved_executes_and_error_leaves_pending
    (st : SessionState) (i : Nat) (a : Approval)
    (hget : st.pending_approvals[i]? = some a)
    (hp : a.status = Status.pending) :
    (∀ r, a.action.outcome = ActionOutcome.returns r →
      (approveAt i st).pending_approvals
        = st.pending_approvals.set i { a with status := Status.approved }
      ∧ (approveAt i st).messages = st.messages ++ ["✅ 操作已执行：" ++ r]
      ∧ (approveAt i st).execLog = st.execLog ++ [a.action.label])
    ∧ (∀ e, a.action.outcome = ActionOutcome.raises e →
      approveAt i st = { st with execLog := st.execLog ++ [a.action.label] }) := by
  constructor
  · intro r hr
    unfold approveAt
    rw [hget]
    simp only [hp, if_true, hr]
    refine ⟨?_, ?_, ?_⟩ <;> trivial
  · intro e he
    unfold approveAt
    rw [hget]
    simp only [hp, if_true, he]

/-- Witness for C5: a returning action is surfaced and marked approved; a
raising action only extends the invocation journal. -/
theorem resolve_approved_executes_and_error_leaves_pending_witness :
    (approveAt 0 (requestApproval "a" ⟨1, .returns "ok"⟩ 2
        emptySession).1).messages = ["✅ 操作已执行：" ++ "ok"]
    ∧ approveAt 0 (requestApproval "b" ⟨2, .raises "boom"⟩ 3 emptySession).1
      = { (requestApproval "b" ⟨2, .raises "boom"⟩ 3 emptySession).1 with
          execLog := (requestApproval "b" ⟨2, .raises "boom"⟩ 3
            emptySession).1.execLog ++ [2] } := by
  constructor
  · have h := ((resolve_approved_executes_and_error_leaves_pending
      (requestApproval "a" ⟨1, .returns "ok"⟩ 2 emptySession).1 0
      ⟨0, 2, "a", ⟨1, .returns "ok"⟩, .pending⟩ rfl rfl).1 "ok" rfl).2.1
    simpa using h
  · exact (resolve_approved_executes_and_error_leaves_pending
      (requestApproval "b" ⟨2, .raises "boom"⟩ 3 emptySession).1 0
      ⟨0, 3, "b", ⟨2, .raises "boom"⟩, .pending⟩ rfl rfl).2 "boom" rfl

/-- Counterexample to C5 as stated: after approving a pending record whose
action raises, the record's status is still pending, not approved. -/
theorem resolve_error_still_pending_counterexample :
    ((approveAt 0 (requestApproval "x" ⟨4, .raises "boom"⟩ 1
        emptySession).1).pending_approvals.map (fun a => a.status))
      = [Status.pending]
    ∧ ((approveAt 0 (requestApproval "x" ⟨4, .raises "boom"⟩ 1
        emptySession).1).pending_approvals.map (fun a => a.status))
      ≠ [Status.approved] := by
  constructor <;> decide

/-- C6: denying a pending record marks it denied without invoking its
action — the invocation journal is unchanged — and the bulk deny sweep
likewise bumps every pending record to denied without touching the
journal. -/
theorem deny_never_invokes_action (st : SessionState) (i : Nat) (a : Approval)
    (hget : st.pending_approvals[i]? = some a)
    (hp : a.status = Status.pending) :
    (denyAt i st).execLog = st.execLog
    ∧ (denyAt i st).pending_approvals
        = st.pending_approvals.set i { a with status := Status.denied }
    ∧ (denyAll st).execLog = st.execLog
    ∧ (denyAll st).pending_approvals = st.pending_approvals.map denyBump := by
  refine ⟨?_, ?_, rfl, ?_⟩
  · unfold denyAt
    rw [hget]
    simp only [hp, if_true]
  · unfold denyAt
    rw [hget]
    simp only [hp, if_true]
  · unfold denyAll
    dsimp only
    rw [denyAllGo_fst]

/-- Witness for C6: denying a registered record leaves the invocation
journal empty, for the per-record path and the bulk path alike. -/
theorem deny_never_invokes_action_witness :
    (denyAt 0 (requestApproval "risky" ⟨9, .returns "done"⟩ 4
        emptySession).1).execLog
      = (requestApproval "risky" ⟨9, .returns "done"⟩ 4 emptySession).1.execLog
    ∧ (denyAll (requestApproval "risky" ⟨9, .returns "done"⟩ 4
        emptySession).1).execLog
      = (requestApproval "risky" ⟨9, .returns "done"⟩ 4
          emptySession).1.execLog := by
  have h := deny_never_invokes_action
    (requestApproval "risky" ⟨9, .returns "done"⟩ 4 emptySession).1 0
    ⟨0, 4, "risky", ⟨9, .returns "done"⟩, .pending⟩ rfl rfl
  exact ⟨h.1, h.2.2.1⟩

/-- C9: clearing processed records keeps exactly the pending ones — every
record pending before the call survives unchanged and is still listed as
pending, and no approved or denied record remains. -/
theorem clear_processed_removes_exactly_terminal (st : SessionState) :
    (clearProcessed st).pending_approvals = listPending st
    ∧ listPending (clearProcessed st) = listPending st
    ∧ ((clearProcessed st).pending_approvals.all
        (fun a => decide (a.status = Status.pending))) = true := by
  refine ⟨rfl, ?_, ?_⟩
  · unfold listPending clearProcessed
    dsimp only
    rw [List.filter_filter]
    apply List.filter_congr
    intro a _
    rw [Bool.and_self]
  · rw [List.all_eq_true]
    intro a ha
    exact (List.mem_filter.mp ha).2

/-- When every pending action returns normally, the bulk approve sweep
bumps every pending record to approved and invokes exactly the pending
actions, in insertion order. -/
theorem approveAllGo_ok : ∀ xs : List Approval,
    xs.all pendingSucceeds = true →
    (approveAllGo xs).1 = xs.map approveBump
    ∧ (approveAllGo xs).2.2
        = (xs.filter (fun a => decide (a.status = Status.pending))).map
            (fun a => a.action.label) := by
  intro xs
  induction xs with
  | nil => intro _; simp [approveAllGo]
  | cons a rest ih =>
    intro h
    rw [List.all_cons, Bool.and_eq_true] at h
    obtain ⟨ha, hrest⟩ := h
    obtain ⟨ih1, ih2⟩ := ih hrest
    by_cases hp : a.status = Status.pending
    · cases hout : a.action.outcome with
      | returns r =>
        simp only [approveAllGo, hp, if_true, hout, List.map_cons,
          List.filter_cons, decide_True]
        constructor
        · rw [ih1]
          unfold approveBump
          simp [hp]
        · simp [hp, ih2]
      | raises e =>
        exfalso
        unfold pendingSucceeds at ha
        rw [hp] at ha
        simp [ActionSpec.succeeds, hout] at ha
    · simp only [approveAllGo, hp, if_false, List.map_cons, List.filter_cons]
      constructor
      · rw [ih1]
        unfold approveBump
        simp [hp]
      · simp [hp, ih2]

/-- The bulk approve sweep is the identity when nothing is pending. -/
theorem approveAllGo_no_pending : ∀ xs : List Approval,
    (∀ a ∈ xs, ¬ (a.status = Status.pending)) →
    approveAllGo xs = (xs, [], []) := by
  intro xs
  induction xs with
  | nil => intro _; rfl
  | cons a rest ih =>
    intro h
    have hp : ¬ (a.status = Status.pending) := h a (List.mem_cons_self a rest)
    have hrest := ih (fun b hb => h b (List.mem_cons_of_mem a hb))
    simp only [approveAllGo, hp, if_false, hrest]

/-- An approve bump never leaves a record pending. -/
theorem approveBump_not_pending (a : Approval) :
    ¬ ((approveBump a).status = Status.pending) := by
  unfold approveBump
  by_cases hp : a.status = Status.pending <;> simp [hp]

/-- A session with no pending record is untouched by the bulk approve
sweep. -/
theorem approveAll_of_no_pending (st : SessionState)
    (h : listPending st = []) : approveAll st = st := by
  unfold listPending at h
  rw [List.filter_eq_nil_iff] at h
  have hGo := approveAllGo_no_pending st.pending_approvals
    (fun a ha => by simpa using h a ha)
  cases st with
  | mk pa f1 f2 f3 msgs el =>
    unfold approveAll
    dsimp only at hGo ⊢
    rw [hGo]
    simp

/-- C4 (amended): when every pending action returns normally, the bulk
approve sweep over the N pending records marks all of them approved,
invokes exactly the pending actions once each in insertion order, leaves no
pending record, and re-invoking the sweep immediately afterwards changes
nothing at all.  (As literally stated the claim fails when a pending action
raises: that record stays pending and a second sweep re-invokes its action;
see the counterexample.) -/
theorem approve_all_resolves_all_pending (st : SessionState)
    (h : allPendingSucceed st = true) :
    (approveAll st).pending_approvals = st.pending_approvals.map approveBump
    ∧ (approveAll st).execLog
        = st.execLog ++ (listPending st).map (fun a => a.action.label)
    ∧ listPending (approveAll st) = []
    ∧ approveAll (approveAll st) = approveAll st := by
  unfold allPendingSucceed at h
  obtain ⟨h1, h2⟩ := approveAllGo_ok st.pending_approvals h
  have hfst : (approveAll st).pending_approvals
      = st.pending_approvals.map approveBump := by
    unfold approveAll
    dsimp only
    rw [h1]
  have hnopending : listPending (approveAll st) = [] := by
    unfold listPending
    rw [hfst, List.filter_eq_nil_iff]
    intro a ha
    rw [List.mem_map] at ha
    obtain ⟨b, _, hb⟩ := ha
    subst hb
    simpa using approveBump_not_pending b
  refine ⟨hfst, ?_, hnopending, approveAll_of_no_pending _ hnopending⟩
  unfold approveAll listPending
  dsimp only
  rw [h2]

/-- Witness for C4: two pending records with returning actions are both
approved by one sweep, their actions run once each in order, and a second
sweep is the identity. -/
theorem approve_all_resolves_all_pending_witness :
    allPendingSucceed (runOps [Op.register "one" ⟨1, .returns "r1"⟩ 1,
        Op.register "two" ⟨2, .returns "r2"⟩ 2] emptySession) = true
    ∧ (approveAll (runOps [Op.register "one" ⟨1, .returns "r1"⟩ 1,
        Op.register "two" ⟨2, .returns "r2"⟩ 2] emptySession)).execLog
      = [1, 2]
    ∧ listPending (approveAll (runOps [Op.register "one" ⟨1, .returns "r1"⟩ 1,
        Op.register "two" ⟨2, .returns "r2"⟩ 2] emptySession)) = []
    ∧ approveAll (approveAll (runOps [Op.register "one" ⟨1, .returns "r1"⟩ 1,
        Op.register "two" ⟨2, .returns "r2"⟩ 2] emptySession))
      = approveAll (runOps [Op.register "one" ⟨1, .returns "r1"⟩ 1,
        Op.register "two" ⟨2, .returns "r2"⟩ 2] emptySession) := by
  have h := approve_all_resolves_all_pending
    (runOps [Op.register "one" ⟨1, .returns "r1"⟩ 1,
      Op.register "two" ⟨2, .returns "r2"⟩ 2] emptySession) (by decide)
  refine ⟨by decide, ?_, h.2.2.1, h.2.2.2⟩
  rw [h.2.1]
  decide

/-- Counterexample to C4 as stated: with one pending record whose action
raises, the sweep leaves it pending (not approved), and re-invoking the
sweep performs a second execution instead of zero. -/
theorem approve_all_raising_counterexample :
    ((approveAll ((requestApproval "x" ⟨5, .raises "boom"⟩ 1
        emptySession).1)).pending_approvals.map (fun a => a.status))
      = [Status.pending]
    ∧ execCount 5 (approveAll (approveAll ((requestApproval "x"
        ⟨5, .raises "boom"⟩ 1 emptySession).1))) = 2 := by
  constructor <;> decide

/-- A non-empty list of valid category arguments converts to a non-empty
enum list. -/
theorem convertCats_ne_nil (cs : List CatArg)
    (hval : cs.all CatArg.valid = true) (hne : cs ≠ []) :
    convertCats cs ≠ [] := by
  cases cs with
  | nil => exact absurd rfl hne
  | cons c rest =>
    rw [List.all_cons, Bool.and_eq_true] at hval
    obtain ⟨hc, _⟩ := hval
    cases c with
    | str s =>
      unfold CatArg.valid at hc
      rw [Option.isSome_iff_exists] at hc
      obtain ⟨cat, hcat⟩ := hc
      simp [convertCats, List.filterMap_cons, hcat]
    | cat c => simp [convertCats, List.filterMap_cons]

/-- C7: with a well-formed non-empty category filter and a non-empty name
filter, `get_tools` returns exactly the handles — in module-registration
order, then handle order — whose config exists and is enabled, whose
config category is in the converted filter set, and whose name is in the
name filter (the spec-side predicate `specToolPasses`); and under any
filters at all, a tool without an enabled config is never returned. -/
theorem get_tools_filters_enabled_category_name (reg : ToolRegistry)
    (cs : List CatArg) (ns : List String)
    (hval : cs.all CatArg.valid = true)
    (hcs : cs ≠ []) (hns : ns ≠ []) :
    reg.get_tools (some cs) (some ns)
      = (reg.modules.map (fun m => m.2)).flatten.filter
          (specToolPasses reg.tool_configs (some (convertCats cs)) (some ns))
    ∧ (∀ (categories : Option (List CatArg))
        (enabled_tools : Option (List String)) (t : ToolHandle),
        t ∈ reg.get_tools categories enabled_tools →
        ∃ cfg, List.lookup t.name reg.tool_configs = some cfg
          ∧ cfg.enabled = true) := by
  constructor
  · have hcse : cs.isEmpty = false := List.isEmpty_eq_false.mpr hcs
    have hnse : ns.isEmpty = false := List.isEmpty_eq_false.mpr hns
    have hcc : (convertCats cs).isEmpty = false :=
      List.isEmpty_eq_false.mpr (convertCats_ne_nil cs hval hcs)
    unfold ToolRegistry.get_tools
    simp only [hcse, hnse, Bool.false_eq_true, if_false]
    apply List.filter_congr
    intro t _
    unfold toolPasses specToolPasses
    cases hcfg : List.lookup t.name reg.tool_configs with
    | none => rfl
    | some cfg => simp [hcc, hnse]
  · intro categories enabled_tools t ht
    simp only [ToolRegistry.get_tools] at ht
    have hpass := (List.mem_filter.mp ht).2
    unfold toolPasses at hpass
    cases hcfg : List.lookup t.name reg.tool_configs with
    | none => rw [hcfg] at hpass; simp at hpass
    | some cfg =>
      rw [hcfg] at hpass
      simp only [Bool.and_eq_true] at hpass
      exact ⟨cfg, rfl, hpass.1.1⟩

/-- Witness for C7: the spec's example — configs A(utility, enabled),
B(memory, enabled), C(utility, disabled); filtering on category "utility"
returns exactly A. -/
theorem get_tools_filters_enabled_category_name_witness :
    ([CatArg.str "utility"].all CatArg.valid = true
      ∧ [CatArg.str "utility"] ≠ ([] : List CatArg)
      ∧ (["A", "B", "C"] : List String) ≠ [])
    ∧ regEx.get_tools (some [CatArg.str "utility"]) (some ["A", "B", "C"])
      = [⟨"A"⟩] := by
  refine ⟨⟨by decide, by decide, by decide⟩, ?_⟩
  rw [(get_tools_filters_enabled_category_name regEx [CatArg.str "utility"]
    ["A", "B", "C"] (by decide) (by decide) (by decide)).1]
  decide

/-- C10: a non-empty category filter made only of unrecognized strings
converts to the empty enum list, the empty filter is treated as no filter,
and the call returns every enabled tool of every module; and a plain empty
list passed for either filter falls back to the instance-level setting. -/
theorem get_tools_unknown_categories_return_all (reg : ToolRegistry)
    (cs : List String)
    (hinv : cs.all (fun s => (ToolCategory.ofString? s).isNone) = true)
    (hne : cs ≠ [])
    (hreg : reg.enabled_tools = none) :
    reg.get_tools (some (cs.map CatArg.str)) none
      = (reg.modules.map (fun m => m.2)).flatten.filter
          (fun t => match List.lookup t.name reg.tool_configs with
            | none => false
            | some cfg => cfg.enabled)
    ∧ (∀ ets, reg.get_tools (some []) ets = reg.get_tools none ets)
    ∧ (∀ cats, reg.get_tools cats (some []) = reg.get_tools cats none) := by
  refine ⟨?_, fun ets => rfl, fun cats => rfl⟩
  have hmape : (cs.map CatArg.str).isEmpty = false :=
    List.isEmpty_eq_false.mpr (by simpa [List.map_eq_nil_iff] using hne)
  have hcc : convertCats (cs.map CatArg.str) = [] := by
    unfold convertCats
    rw [List.filterMap_eq_nil_iff]
    intro c hc
    rw [List.mem_map] at hc
    obtain ⟨s, hs, hcs'⟩ := hc
    subst hcs'
    rw [List.all_eq_true] at hinv
    have := hinv s hs
    simpa [Option.isNone_iff_eq_none] using this
  unfold ToolRegistry.get_tools
  simp only [hmape, Bool.false_eq_true, if_false, hcc, hreg]
  apply List.filter_congr
  intro t _
  unfold toolPasses
  cases hcfg : List.lookup t.name reg.tool_configs with
  | none => rfl
  | some cfg => simp

/-- Witness for C10: filtering `regEx` on the unknown category "bogus"
returns both enabled tools A and B (not the empty list), skipping only the
disabled C. -/
theorem get_tools_unknown_categories_return_all_witness :
    (["bogus"].all (fun s => (ToolCategory.ofString? s).isNone) = true
      ∧ (["bogus"] : List String) ≠ []
      ∧ regEx.enabled_tools = none)
    ∧ regEx.get_tools (some (["bogus"].map CatArg.str)) none
      = [⟨"A"⟩, ⟨"B"⟩] := by
  refine ⟨⟨by decide, by decide, rfl⟩, ?_⟩
  rw [(get_tools_unknown_categories_return_all regEx ["bogus"]
    (by decide) (by decide) rfl).1]
  decide

/-- C8 is violated by the code (`approval_id = len(pending_approvals)`):
after registering A and B, approving A and clearing processed records,
registering C assigns it id 1 — the id the still-live record B already
carries, so two records created in the same log share an id. -/
theorem approval_id_reused_after_clear_processed :
    ((runOps [Op.register "操作A" ⟨10, .returns "ra"⟩ 100,
        Op.register "操作B" ⟨11, .returns "rb"⟩ 200,
        Op.approve 0, Op.clearProcessedOp,
        Op.register "操作C" ⟨12, .returns "rc"⟩ 300]
        emptySession).pending_approvals.map (fun a => a.id)) = [1, 1]
    ∧ ((runOps [Op.register "操作A" ⟨10, .returns "ra"⟩ 100,
        Op.register "操作B" ⟨11, .returns "rb"⟩ 200,
        Op.approve 0, Op.clearProcessedOp,
        Op.register "操作C" ⟨12, .returns "rc"⟩ 300]
        emptySession).pending_approvals.map (fun a => a.description))
      = ["操作B", "操作C"] := by
  constructor <;> decide
